import Mathlib

/-!
Verification of the hindsight memory engine's link-synthesis, chunking,
extraction, consolidation and embedding layers, shallowly embedded from
the Python sources (src/memory/operations, src/memora/memora,
src/web/server.py and the hindsight-api migrations/tests).  Uuids are
modelled as naturals, timestamps as rationals (hours), vectors as lists
of rationals.
-/

namespace Hindsight

/-! ### Memory links

Model of `memory_links` rows and the upsert used by
`src/memory/operations/link_operations.py`: every insert goes through
`INSERT ... ON CONFLICT (from_unit_id, to_unit_id, link_type,
COALESCE(entity_id, all-zero-uuid)) DO NOTHING`, the unique index
created by migration `01f989db9079`.  The all-zero sentinel uuid is
modelled as `0`. -/

inductive LinkType where
  | temporal
  | semantic
  | entity
deriving DecidableEq, Repr

structure MemoryLink where
  fromUnit : Nat
  toUnit : Nat
  linkType : LinkType
  weight : ℚ
  entityId : Option Nat
deriving DecidableEq, Repr

def sentinelEntityId : Nat := 0

def linkKey (l : MemoryLink) : Nat × Nat × LinkType × Nat :=
  (l.fromUnit, l.toUnit, l.linkType, l.entityId.getD sentinelEntityId)

def KeyIn (store : List MemoryLink) (k : Nat × Nat × LinkType × Nat) : Prop :=
  ∃ l ∈ store, linkKey l = k

instance (store : List MemoryLink) (k : Nat × Nat × LinkType × Nat) :
    Decidable (KeyIn store k) := by
  unfold KeyIn
  infer_instance

def insertLink (store : List MemoryLink) (l : MemoryLink) : List MemoryLink :=
  if KeyIn store (linkKey l) then store else store ++ [l]

def insertLinksBatch (store : List MemoryLink) (batch : List MemoryLink) :
    List MemoryLink :=
  batch.foldl insertLink store

def UniqueKeys (store : List MemoryLink) : Prop :=
  store.Pairwise (fun a b => linkKey a ≠ linkKey b)

theorem insertLink_of_keyIn {store : List MemoryLink} {l : MemoryLink}
    (h : KeyIn store (linkKey l)) : insertLink store l = store :=
  if_pos h

theorem keyIn_insertLink_self (store : List MemoryLink) (l : MemoryLink) :
    KeyIn (insertLink store l) (linkKey l) := by
  unfold insertLink
  by_cases h : KeyIn store (linkKey l)
  · rw [if_pos h]
    exact h
  · rw [if_neg h]
    exact ⟨l, by simp, rfl⟩

theorem keyIn_insertLink_mono {store : List MemoryLink}
    {k : Nat × Nat × LinkType × Nat} (l : MemoryLink) (h : KeyIn store k) :
    KeyIn (insertLink store l) k := by
  unfold insertLink
  by_cases hc : KeyIn store (linkKey l)
  · rwa [if_pos hc]
  · rw [if_neg hc]
    obtain ⟨a, ha, hk⟩ := h
    exact ⟨a, by simp [ha], hk⟩

theorem keyIn_insertLinksBatch_mono {k : Nat × Nat × LinkType × Nat}
    (batch : List MemoryLink) {store : List MemoryLink} (h : KeyIn store k) :
    KeyIn (insertLinksBatch store batch) k := by
  induction batch generalizing store with
  | nil => exact h
  | cons b rest ih => exact ih (keyIn_insertLink_mono b h)

theorem keyIn_insertLinksBatch_of_mem {batch : List MemoryLink}
    {l : MemoryLink} (store : List MemoryLink) (h : l ∈ batch) :
    KeyIn (insertLinksBatch store batch) (linkKey l) := by
  induction batch generalizing store with
  | nil => cases h
  | cons b rest ih =>
    rcases List.mem_cons.mp h with rfl | hmem
    · exact keyIn_insertLinksBatch_mono rest (keyIn_insertLink_self store l)
    · exact ih (insertLink store b) hmem

theorem insertLinksBatch_of_all_keys {store batch : List MemoryLink}
    (h : ∀ l ∈ batch, KeyIn store (linkKey l)) :
    insertLinksBatch store batch = store := by
  induction batch with
  | nil => rfl
  | cons b rest ih =>
    have hb : insertLink store b = store := insertLink_of_keyIn (h b (by simp))
    show insertLinksBatch (insertLink store b) rest = store
    rw [hb]
    exact ih fun l hl => h l (by simp [hl])

theorem uniqueKeys_insertLink {store : List MemoryLink} (l : MemoryLink)
    (h : UniqueKeys store) : UniqueKeys (insertLink store l) := by
  unfold insertLink
  by_cases hc : KeyIn store (linkKey l)
  · rwa [if_pos hc]
  · rw [if_neg hc]
    refine List.pairwise_append.mpr ⟨h, List.pairwise_singleton _ _, ?_⟩
    intro a ha b hb
    have hb' : b = l := by simpa using hb
    subst hb'
    intro hk
    exact hc ⟨a, ha, hk⟩

theorem uniqueKeys_insertLinksBatch {store : List MemoryLink}
    (batch : List MemoryLink) (h : UniqueKeys store) :
    UniqueKeys (insertLinksBatch store batch) := by
  induction batch generalizing store with
  | nil => exact h
  | cons b rest ih => exact ih (uniqueKeys_insertLink b h)

/-- Claim C4: memory links are unique on the key
(from_unit, to_unit, link_type, entity_id coalesced to the all-zero
sentinel); inserting a link whose key already exists is treated as
success and leaves the stored links unchanged; re-running any
link-insertion batch is idempotent. -/
theorem memory_links_upsert_idempotent (store batch : List MemoryLink)
    (hu : UniqueKeys store) :
    UniqueKeys (insertLinksBatch store batch) ∧
    (∀ l : MemoryLink, KeyIn store (linkKey l) → insertLink store l = store) ∧
    insertLinksBatch (insertLinksBatch store batch) batch =
      insertLinksBatch store batch := by
  refine ⟨uniqueKeys_insertLinksBatch batch hu, fun l hl => insertLink_of_keyIn hl, ?_⟩
  exact insertLinksBatch_of_all_keys fun l hl => keyIn_insertLinksBatch_of_mem store hl

/-- Witness for C4 at a concrete store and batch. -/
theorem memory_links_upsert_idempotent_witness :
    UniqueKeys (insertLinksBatch [] [⟨1, 2, LinkType.entity, 1, some 3⟩]) ∧
    (∀ l : MemoryLink, KeyIn [] (linkKey l) → insertLink [] l = []) ∧
    insertLinksBatch (insertLinksBatch [] [⟨1, 2, LinkType.entity, 1, some 3⟩])
        [⟨1, 2, LinkType.entity, 1, some 3⟩] =
      insertLinksBatch [] [⟨1, 2, LinkType.entity, 1, some 3⟩] :=
  memory_links_upsert_idempotent [] [⟨1, 2, LinkType.entity, 1, some 3⟩]
    List.Pairwise.nil

/-! ### Temporal and entity link synthesis

Model of `_create_temporal_links_batch_per_fact` and of step 3 of
`_extract_entities_batch_optimized` in
`src/memory/operations/link_operations.py`.  `event_date`s are rationals
measured in hours. -/

structure UnitRow where
  id : Nat
  agentId : Nat
  eventDate : ℚ
deriving DecidableEq, Repr

/-- The candidate query of `_create_temporal_links_batch_per_fact`
(step 7.2): units of the same agent with `event_date` in the global
window, excluding every id of the new batch
(`id::text != ALL(unit_ids)`). -/
def temporalCandidates (store : List UnitRow) (agentId : Nat)
    (newIds : List Nat) (minDate maxDate : ℚ) : List UnitRow :=
  store.filter fun r =>
    r.agentId = agentId ∧ minDate ≤ r.eventDate ∧ r.eventDate ≤ maxDate ∧
      r.id ∉ newIds

/-- Step 7.3 for one new unit: filter candidates to this unit's own
window, keep the first 10, and weight each link by
`max(0.3, 1 - time_diff_hours / time_window_hours)`. -/
def temporalLinksForUnit (window : ℚ) (candidates : List UnitRow)
    (uid : Nat) (udate : ℚ) : List MemoryLink :=
  let matching :=
    (candidates.filter fun r =>
      udate - window ≤ r.eventDate ∧ r.eventDate ≤ udate + window).take 10
  matching.map fun r =>
    ⟨uid, r.id, LinkType.temporal, max (3/10) (1 - |udate - r.eventDate| / window), none⟩

/-- Default of the `time_window_hours` parameter. -/
def defaultTimeWindowHours : ℚ := 24

/-- `_create_temporal_links_batch_per_fact` over the whole batch of new
units `(id, event_date)`: one candidate query over the global date
range, then per-unit link generation. -/
def createTemporalLinksBatch (store : List UnitRow) (agentId : Nat)
    (window : ℚ) (newUnits : List (Nat × ℚ)) : List MemoryLink :=
  match newUnits with
  | [] => []
  | u0 :: _ =>
    let dates := newUnits.map Prod.snd
    let minDate := dates.foldl min u0.2 - window
    let maxDate := dates.foldl max u0.2 + window
    let candidates :=
      temporalCandidates store agentId (newUnits.map Prod.fst) minDate maxDate
    newUnits.flatMap fun u => temporalLinksForUnit window candidates u.1 u.2

/-- Step 6.3 of `_extract_entities_batch_optimized`: for each pair of
units sharing an entity, two `entity` links (weight 1.0, carrying the
entity id), one in each direction. -/
def entityLinksForEntity (eid : Nat) : List Nat → List MemoryLink
  | [] => []
  | u :: rest =>
    (rest.flatMap fun v =>
      [⟨u, v, LinkType.entity, 1, some eid⟩, ⟨v, u, LinkType.entity, 1, some eid⟩]) ++
      entityLinksForEntity eid rest

theorem temporalLinksForUnit_spec (window : ℚ) (hw : 0 < window)
    (candidates : List UnitRow) (uid : Nat) (udate : ℚ) :
    (temporalLinksForUnit window candidates uid udate).length ≤ 10 ∧
    ∀ l ∈ temporalLinksForUnit window candidates uid udate,
      l.fromUnit = uid ∧ l.linkType = LinkType.temporal ∧
      ∃ r ∈ candidates, l.toUnit = r.id ∧
        |udate - r.eventDate| ≤ window ∧
        l.weight = max (3/10) (1 - |udate - r.eventDate| / window) ∧
        3/10 ≤ l.weight ∧ l.weight ≤ 1 := by
  constructor
  · calc (temporalLinksForUnit window candidates uid udate).length
        = _ := List.length_map _ _
      _ ≤ 10 := by
        simp
  · intro l hl
    unfold temporalLinksForUnit at hl
    obtain ⟨r, hr, rfl⟩ := List.mem_map.mp hl
    have hr' := List.take_subset 10 _ hr
    have hmem := List.mem_filter.mp hr'
    have hband : |udate - r.eventDate| ≤ window := by
      have h1 : udate - window ≤ r.eventDate := (of_decide_eq_true hmem.2).1
      have h2 : r.eventDate ≤ udate + window := (of_decide_eq_true hmem.2).2
      rw [abs_sub_le_iff]
      constructor <;> linarith
    refine ⟨rfl, rfl, r, hmem.1, rfl, hband, rfl, le_max_left _ _, ?_⟩
    have hnn : 0 ≤ |udate - r.eventDate| / window :=
      div_nonneg (abs_nonneg _) (le_of_lt hw)
    have h1 : (1 : ℚ) - |udate - r.eventDate| / window ≤ 1 := by linarith
    have h2 : (3/10 : ℚ) ≤ 1 := by norm_num
    exact max_le h2 h1

/-- Claim C8: every temporal link joins two units whose `event_date`s
differ by at most the time window, at most 10 such links are created per
new unit, and each weight equals `max(0.3, 1 - time_diff/window)`, hence
lies in [0.3, 1]. -/
theorem temporal_links_window_and_weight (store : List UnitRow)
    (agentId : Nat) (window : ℚ) (hw : 0 < window)
    (newUnits : List (Nat × ℚ)) :
    (∀ (candidates : List UnitRow) (uid : Nat) (udate : ℚ),
        (temporalLinksForUnit window candidates uid udate).length ≤ 10) ∧
    ∀ l ∈ createTemporalLinksBatch store agentId window newUnits,
      l.linkType = LinkType.temporal ∧
      ∃ v ∈ newUnits, ∃ r ∈ store, l.fromUnit = v.1 ∧ l.toUnit = r.id ∧
        |v.2 - r.eventDate| ≤ window ∧
        l.weight = max (3/10) (1 - |v.2 - r.eventDate| / window) ∧
        3/10 ≤ l.weight ∧ l.weight ≤ 1 := by
  refine ⟨fun candidates uid udate =>
    (temporalLinksForUnit_spec window hw candidates uid udate).1, ?_⟩
  intro l hl
  unfold createTemporalLinksBatch at hl
  cases newUnits with
  | nil => cases hl
  | cons u0 rest =>
    simp only [List.mem_flatMap] at hl
    obtain ⟨v, hv, hlv⟩ := hl
    obtain ⟨hfrom, hty, r, hr, hto, hband, hwt, hlo, hhi⟩ :=
      (temporalLinksForUnit_spec window hw _ v.1 v.2).2 l hlv
    have hrstore : r ∈ store := (List.mem_filter.mp hr).1
    exact ⟨hty, v, hv, r, hrstore, hfrom, hto, hband, hwt, hlo, hhi⟩

/-- Witness for C8 at a concrete store and batch. -/
theorem temporal_links_window_and_weight_witness :
    (0 : ℚ) < defaultTimeWindowHours ∧
    ((∀ (candidates : List UnitRow) (uid : Nat) (udate : ℚ),
        (temporalLinksForUnit defaultTimeWindowHours candidates uid udate).length ≤ 10) ∧
      ∀ l ∈ createTemporalLinksBatch [⟨2, 7, 20⟩] 7 defaultTimeWindowHours
          [((1 : Nat), (30 : ℚ))],
        l.linkType = LinkType.temporal ∧
        ∃ v ∈ [((1 : Nat), (30 : ℚ))], ∃ r ∈ [(⟨2, 7, 20⟩ : UnitRow)],
          l.fromUnit = v.1 ∧ l.toUnit = r.id ∧
          |v.2 - r.eventDate| ≤ defaultTimeWindowHours ∧
          l.weight = max (3/10) (1 - |v.2 - r.eventDate| / defaultTimeWindowHours) ∧
          3/10 ≤ l.weight ∧ l.weight ≤ 1) :=
  ⟨by norm_num [defaultTimeWindowHours],
    temporal_links_window_and_weight [⟨2, 7, 20⟩] 7 defaultTimeWindowHours
      (by norm_num [defaultTimeWindowHours]) [((1 : Nat), (30 : ℚ))]⟩

theorem entityLinksForEntity_symm (eid : Nat) (us : List Nat) :
    ∀ l ∈ entityLinksForEntity eid us,
      (⟨l.toUnit, l.fromUnit, l.linkType, l.weight, l.entityId⟩ : MemoryLink) ∈
        entityLinksForEntity eid us := by
  induction us with
  | nil =>
    intro l hl
    cases hl
  | cons u rest ih =>
    intro l hl
    rw [entityLinksForEntity] at hl ⊢
    rcases List.mem_append.mp hl with hl | hl
    · obtain ⟨v, hv, hlv⟩ := List.mem_flatMap.mp hl
      refine List.mem_append.mpr (Or.inl (List.mem_flatMap.mpr ⟨v, hv, ?_⟩))
      rcases List.mem_cons.mp hlv with rfl | hlv
      · simp
      · have hl2 : l = ⟨v, u, LinkType.entity, 1, some eid⟩ := by simpa using hlv
        subst hl2
        simp
    · exact List.mem_append.mpr (Or.inr (ih l hl))

/-- Claim C10: every temporal link of the batch phase goes from one of
the batch's new units to a pre-existing unit outside the batch (the
candidate query excludes the new ids), with no reverse and no
new-to-new links, in contrast with entity links which are generated in
both directions. -/
theorem temporal_links_directed_entity_links_bidirectional
    (store : List UnitRow) (agentId : Nat) (window : ℚ)
    (newUnits : List (Nat × ℚ)) :
    (∀ l ∈ createTemporalLinksBatch store agentId window newUnits,
        l.fromUnit ∈ newUnits.map Prod.fst ∧
        l.toUnit ∉ newUnits.map Prod.fst) ∧
    ∀ (eid : Nat) (us : List Nat), ∀ l ∈ entityLinksForEntity eid us,
      (⟨l.toUnit, l.fromUnit, l.linkType, l.weight, l.entityId⟩ : MemoryLink) ∈
        entityLinksForEntity eid us := by
  refine ⟨?_, fun eid us => entityLinksForEntity_symm eid us⟩
  intro l hl
  unfold createTemporalLinksBatch at hl
  cases newUnits with
  | nil => cases hl
  | cons u0 rest =>
    obtain ⟨v, hv, hlv⟩ := List.mem_flatMap.mp hl
    unfold temporalLinksForUnit at hlv
    obtain ⟨r, hr, rfl⟩ := List.mem_map.mp hlv
    have hr' := List.take_subset _ _ hr
    have hmem := List.mem_filter.mp hr'
    have hcand := List.mem_filter.mp hmem.1
    have hprops := of_decide_eq_true hcand.2
    exact ⟨List.mem_map.mpr ⟨v, hv, rfl⟩, hprops.2.2.2⟩

/-- Witness for C10 at a concrete store, batch and entity group. -/
theorem temporal_links_directed_entity_links_bidirectional_witness :
    (∀ l ∈ createTemporalLinksBatch [⟨2, 7, 20⟩] 7 defaultTimeWindowHours
        [((1 : Nat), (30 : ℚ))],
      l.fromUnit ∈ [((1 : Nat), (30 : ℚ))].map Prod.fst ∧
      l.toUnit ∉ [((1 : Nat), (30 : ℚ))].map Prod.fst) ∧
    ∀ (eid : Nat) (us : List Nat), ∀ l ∈ entityLinksForEntity eid us,
      (⟨l.toUnit, l.fromUnit, l.linkType, l.weight, l.entityId⟩ : MemoryLink) ∈
        entityLinksForEntity eid us :=
  temporal_links_directed_entity_links_bidirectional [⟨2, 7, 20⟩] 7
    defaultTimeWindowHours [((1 : Nat), (30 : ℚ))]

/-! ### Chunking

`chunk_text` in `src/memora/memora/fact_extraction.py`: texts of at most
`max_chars` characters are returned unchanged as a single chunk; longer
texts go to a recursive character splitter configured with a fixed
separator preference list. -/

/-- The separator preference list `chunk_text` passes to the splitter. -/
def chunkSeparators : List String :=
  ["\n\n", "\n", ". ", "! ", "? ", "; ", ", ", " ", ""]

/-- Modelled from the spec: LangChain's `RecursiveCharacterTextSplitter`
(an external dependency used by `chunk_text`) is not part of this
repository.  Per the spec, a text longer than `maxChars` is split at the
first separator of the preference list that applies, recursing with the
remaining separators on pieces that are still too long; the empty
separator (last resort) splits into single characters. -/
def recursiveSplit (maxChars : Nat) : List String → String → List String
  | [], text => [text]
  | sep :: rest, text =>
    if text.length ≤ maxChars then [text]
    else
      let pieces :=
        if sep = "" then text.toList.map (fun c => String.mk [c])
        else text.splitOn sep
      pieces.flatMap (recursiveSplit maxChars rest)

/-- `chunk_text(text, max_chars)`. -/
def chunk_text (text : String) (maxChars : Nat) : List String :=
  if text.length ≤ maxChars then [text]
  else recursiveSplit maxChars chunkSeparators text

/-- Claim C6: an input of at most `max_chars` characters (including
exactly `max_chars`) yields exactly one chunk equal to the input; longer
texts are handed to the splitter with separators in the preference order
blank line, line break, ". ", "! ", "? ", "; ", ", ", space, single
characters. -/
theorem chunk_text_boundary_and_separator_order (text : String)
    (maxChars : Nat) (h : text.length ≤ maxChars) :
    chunk_text text maxChars = [text] ∧
    chunkSeparators = ["\n\n", "\n", ". ", "! ", "? ", "; ", ", ", " ", ""] ∧
    ∀ t : String, maxChars < t.length →
      chunk_text t maxChars = recursiveSplit maxChars chunkSeparators t := by
  refine ⟨?_, rfl, ?_⟩
  · unfold chunk_text
    exact if_pos h
  · intro t ht
    unfold chunk_text
    exact if_neg (by omega)

/-- Witness for C6 at a text of exactly the maximum length. -/
theorem chunk_text_boundary_and_separator_order_witness :
    ("abcde".length ≤ 5) ∧
    (chunk_text "abcde" 5 = ["abcde"] ∧
      chunkSeparators = ["\n\n", "\n", ". ", "! ", "? ", "; ", ", ", " ", ""] ∧
      ∀ t : String, 5 < t.length →
        chunk_text t 5 = recursiveSplit 5 chunkSeparators t) :=
  ⟨by decide, chunk_text_boundary_and_separator_order "abcde" 5 (by decide)⟩

/-! ### Automatic output-length splitting

`_extract_facts_with_auto_split` in
`src/memora/memora/fact_extraction.py`: on `OutputTooLongError` the
chunk is split near its midpoint, preferring a sentence boundary within
20% of the midpoint, and both halves are extracted recursively; their
fact lists are concatenated in order.  Texts are lists of characters
(Python indexes codepoints); `int(len(chunk) * 0.2)` equals
`chunk.length / 5` at these magnitudes. -/

def sentenceEndings : List String := [". ", "! ", "? ", "\n\n"]

/-- Python's `chunk.rfind(pat, start, stop)`: the largest `i` with
`start ≤ i`, `i + pat.length ≤ stop` and the pattern matching at `i`
(scanning `stop - 1, ..., 0`); `none` stands for `-1`. -/
def rfindInRange (chunk : List Char) (pat : String) (start stop : Nat) :
    Option Nat :=
  (List.range stop).reverse.find? fun i =>
    decide (start ≤ i) && decide (i + pat.length ≤ stop) &&
      decide ((chunk.drop i).take pat.length = pat.toList)

/-- The `for ending in sentence_endings` loop: the first ending found in
the search window wins, and best_split is `pos + len(ending)`. -/
def findBoundary (chunk : List Char) (start stop : Nat) :
    List String → Option Nat
  | [] => none
  | e :: rest =>
    match rfindInRange chunk e start stop with
    | some pos => some (pos + e.length)
    | none => findBoundary chunk start stop rest

/-- `best_split`: the sentence boundary found within 20% of the
midpoint, else the midpoint itself.  `max(0, mid - range)` is Nat
truncated subtraction; `min(len(chunk), mid + range)` is `min`. -/
def splitBoundary (chunk : List Char) : Nat :=
  let mid := chunk.length / 2
  let range := chunk.length / 5
  match findBoundary chunk (mid - range) (min chunk.length (mid + range))
      sentenceEndings with
  | some b => b
  | none => mid

/-- Python `str.strip()`. -/
def stripChars (l : List Char) : List Char :=
  ((l.dropWhile Char.isWhitespace).reverse.dropWhile Char.isWhitespace).reverse

/-- The two halves `chunk[:best_split].strip()`, `chunk[best_split:].strip()`. -/
def splitChunk (chunk : List Char) : List Char × List Char :=
  (stripChars (chunk.take (splitBoundary chunk)),
    stripChars (chunk.drop (splitBoundary chunk)))

/-- `_extract_facts_with_auto_split`: `extract` is the per-chunk LLM
extraction, returning `.error ()` when the provider raises
`OutputTooLongError`.  The unbounded Python recursion is modelled with
explicit fuel; `none` models divergence. -/
def extractFactsWithAutoSplit {α : Type}
    (extract : List Char → Except Unit (List α)) :
    Nat → List Char → Option (List α)
  | 0, _ => none
  | fuel + 1, chunk =>
    match extract chunk with
    | .ok facts => some facts
    | .error _ =>
      match extractFactsWithAutoSplit extract fuel (splitChunk chunk).1,
          extractFactsWithAutoSplit extract fuel (splitChunk chunk).2 with
      | some a, some b => some (a ++ b)
      | _, _ => none

theorem findBoundary_bounds {chunk : List Char} {start stop : Nat}
    {es : List String} {b : Nat}
    (h : findBoundary chunk start stop es = some b) :
    start ≤ b ∧ b ≤ stop := by
  induction es with
  | nil => cases h
  | cons e rest ih =>
    rw [findBoundary] at h
    cases hf : rfindInRange chunk e start stop with
    | some pos =>
      rw [hf] at h
      have hb : pos + e.length = b := by
        simpa using h
      have hp := List.find?_some hf
      simp only [Bool.and_eq_true, decide_eq_true_eq] at hp
      omega
    | none =>
      rw [hf] at h
      exact ih h

/-- Claim C7: on `OutputTooLongError` the chunk is split at the
midpoint, preferring a sentence boundary within 20% of the midpoint,
both halves are extracted recursively, and the result is the first
half's facts followed by the second half's facts. -/
theorem auto_split_concat_and_midpoint {α : Type}
    (extract : List Char → Except Unit (List α)) (fuel : Nat)
    (chunk : List Char) (fa fb : List α)
    (herr : extract chunk = .error ())
    (h1 : extractFactsWithAutoSplit extract fuel (splitChunk chunk).1 = some fa)
    (h2 : extractFactsWithAutoSplit extract fuel (splitChunk chunk).2 = some fb) :
    extractFactsWithAutoSplit extract (fuel + 1) chunk = some (fa ++ fb) ∧
    chunk.length / 2 - chunk.length / 5 ≤ splitBoundary chunk ∧
    splitBoundary chunk ≤ chunk.length / 2 + chunk.length / 5 := by
  refine ⟨?_, ?_⟩
  · rw [extractFactsWithAutoSplit, herr, h1, h2]
  · unfold splitBoundary
    cases hb : findBoundary chunk (chunk.length / 2 - chunk.length / 5)
        (min chunk.length (chunk.length / 2 + chunk.length / 5))
        sentenceEndings with
    | some b =>
      have := findBoundary_bounds hb
      simp only [hb]
      omega
    | none =>
      simp only [hb]
      omega

/-- Witness extraction oracle: chunks of more than one character are too
long. -/
def exampleExtract (c : List Char) : Except Unit (List Nat) :=
  if c.length ≤ 1 then Except.ok [c.length] else Except.error ()

/-- Witness for C7 at a concrete two-character chunk. -/
theorem auto_split_concat_and_midpoint_witness :
    (exampleExtract ['a', 'b'] = .error ()) ∧
    (extractFactsWithAutoSplit exampleExtract 1 (splitChunk ['a', 'b']).1 =
      some [1]) ∧
    (extractFactsWithAutoSplit exampleExtract 1 (splitChunk ['a', 'b']).2 =
      some [1]) ∧
    (extractFactsWithAutoSplit exampleExtract 2 ['a', 'b'] = some ([1] ++ [1]) ∧
      (['a', 'b'] : List Char).length / 2 - (['a', 'b'] : List Char).length / 5 ≤
        splitBoundary ['a', 'b'] ∧
      splitBoundary ['a', 'b'] ≤
        (['a', 'b'] : List Char).length / 2 + (['a', 'b'] : List Char).length / 5) :=
  ⟨rfl, rfl, rfl,
    auto_split_concat_and_midpoint exampleExtract 1 ['a', 'b'] [1] [1]
      rfl rfl rfl⟩

/-! ### Embedding batch worker

`_encode_batch_worker` in
`src/memory/operations/embedding_operations.py` maps the (pluggable)
sentence-embedding model over the batch and returns one vector per
input text, in order.  The model (`BAAI/bge-small-en-v1.5`) is an
external collaborator; the spec's contract for it -- fixed dimension
`D`, unit L2 norm -- enters as a hypothesis, with the norm stated as
squared norm 1 over ℚ. -/

def encodeBatchWorker (model : String → List ℚ) (texts : List String) :
    List (List ℚ) :=
  texts.map model

def sumSq (v : List ℚ) : ℚ := (v.map fun x => x * x).sum

/-- Claim C9: the embedder returns exactly one vector per input text, in
input order, each of the model's fixed dimension and L2-normalized. -/
theorem embed_batch_contract (model : String → List ℚ) (D : Nat)
    (hmodel : ∀ t, (model t).length = D ∧ sumSq (model t) = 1)
    (texts : List String) :
    (encodeBatchWorker model texts).length = texts.length ∧
    (∀ (i : Nat) (h : i < texts.length)
        (h2 : i < (encodeBatchWorker model texts).length),
      (encodeBatchWorker model texts).get ⟨i, h2⟩ = model (texts.get ⟨i, h⟩)) ∧
    ∀ v ∈ encodeBatchWorker model texts, v.length = D ∧ sumSq v = 1 := by
  refine ⟨List.length_map _ _, ?_, ?_⟩
  · intro i h h2
    simp [encodeBatchWorker]
  · intro v hv
    obtain ⟨t, ht, rfl⟩ := List.mem_map.mp hv
    exact hmodel t

/-- Witness for C9 with a concrete (toy) unit-norm model. -/
theorem embed_batch_contract_witness :
    (encodeBatchWorker (fun _ => [(1 : ℚ)]) ["a", "b"]).length =
      (["a", "b"] : List String).length ∧
    (∀ (i : Nat) (h : i < (["a", "b"] : List String).length)
        (h2 : i < (encodeBatchWorker (fun _ => [(1 : ℚ)]) ["a", "b"]).length),
      (encodeBatchWorker (fun _ => [(1 : ℚ)]) ["a", "b"]).get ⟨i, h2⟩ =
        (fun _ : String => [(1 : ℚ)]) ((["a", "b"] : List String).get ⟨i, h⟩)) ∧
    ∀ v ∈ encodeBatchWorker (fun _ => [(1 : ℚ)]) ["a", "b"],
      v.length = 1 ∧ sumSq v = 1 :=
  embed_batch_contract (fun _ => [(1 : ℚ)]) 1
    (fun _ => ⟨rfl, by norm_num [sumSq]⟩) ["a", "b"]

/-! ### Causal-relation validation

The hindsight-api retain pipeline's fact extraction validates causal
relations per fact. -/

inductive RelationType where
  | caused_by
  | enabled_by
  | prevented_by
deriving DecidableEq, Repr

structure CausalRelation where
  targetFactIndex : Int
  relationType : RelationType
deriving DecidableEq, Repr

structure ExtractedFactH where
  text : String
  causalRelations : List CausalRelation
deriving DecidableEq, Repr

/-- Modelled from the spec: the hard validation in
`hindsight_api.engine.retain.fact_extraction` (exercised by
`tests/test_causal_relations.py` but not under `src/`): walking the fact
list in order, a relation is rejected when its `target_fact_index` is
`≥` the owning fact's index or `< 0`. -/
def validateFrom : Nat → List ExtractedFactH → List ExtractedFactH
  | _, [] => []
  | i, f :: rest =>
    { f with
        causalRelations := f.causalRelations.filter fun r =>
          0 ≤ r.targetFactIndex ∧ r.targetFactIndex < (i : Int) } ::
      validateFrom (i + 1) rest

def validateCausalRelations (facts : List ExtractedFactH) :
    List ExtractedFactH :=
  validateFrom 0 facts

theorem validateFrom_rel_bounds (facts : List ExtractedFactH) :
    ∀ (i j : Nat) (h : j < (validateFrom i facts).length),
      ∀ r ∈ ((validateFrom i facts).get ⟨j, h⟩).causalRelations,
        0 ≤ r.targetFactIndex ∧ r.targetFactIndex < ((i + j : Nat) : Int) := by
  induction facts with
  | nil =>
    intro i j h
    rw [validateFrom] at h
    cases h
  | cons f rest ih =>
    intro i j h
    cases j with
    | zero =>
      intro r hr
      have hmem := List.mem_filter.mp hr
      have hp := of_decide_eq_true hmem.2
      exact ⟨hp.1, by simpa using hp.2⟩
    | succ j' =>
      intro r hr
      have := ih (i + 1) j' (by
        rw [validateFrom] at h
        simpa using Nat.lt_of_succ_lt_succ h) r (by
          simpa using hr)
      refine ⟨this.1, ?_⟩
      have h2 := this.2
      have : (i + 1) + j' = i + (j' + 1) := by omega
      rw [this] at h2
      exact h2

/-- Claim C1: for every unit produced by fact extraction, every causal
relation on the fact at index i has `0 ≤ target_fact_index < i`, the
first fact has no causal relations, and every relation type is one of
caused_by, enabled_by, prevented_by. -/
theorem causal_relations_well_founded (facts : List ExtractedFactH) :
    (∀ (i : Nat) (h : i < (validateCausalRelations facts).length),
      ∀ r ∈ ((validateCausalRelations facts).get ⟨i, h⟩).causalRelations,
        0 ≤ r.targetFactIndex ∧ r.targetFactIndex < (i : Int) ∧
        (r.relationType = RelationType.caused_by ∨
          r.relationType = RelationType.enabled_by ∨
          r.relationType = RelationType.prevented_by)) ∧
    ∀ (h0 : 0 < (validateCausalRelations facts).length),
      ((validateCausalRelations facts).get ⟨0, h0⟩).causalRelations = [] := by
  constructor
  · intro i h r hr
    have hb := validateFrom_rel_bounds facts 0 i h r hr
    refine ⟨hb.1, by simpa using hb.2, ?_⟩
    cases hrt : r.relationType
    · exact Or.inl rfl
    · exact Or.inr (Or.inl rfl)
    · exact Or.inr (Or.inr rfl)
  · intro h0
    rcases hrels : ((validateCausalRelations facts).get ⟨0, h0⟩).causalRelations with
      _ | ⟨r, rest⟩
    · rfl
    · exfalso
      have hb := validateFrom_rel_bounds facts 0 0 h0 r (by
        simp only [validateCausalRelations] at hrels
        rw [hrels]
        simp)
      omega

/-- Witness for C1 at a concrete fact list with an invalid relation. -/
theorem causal_relations_well_founded_witness :
    (∀ (i : Nat)
        (h : i < (validateCausalRelations
          [⟨"a", [⟨0, RelationType.caused_by⟩]⟩,
            ⟨"b", [⟨0, RelationType.caused_by⟩, ⟨5, RelationType.enabled_by⟩]⟩]).length),
      ∀ r ∈ ((validateCausalRelations
          [⟨"a", [⟨0, RelationType.caused_by⟩]⟩,
            ⟨"b", [⟨0, RelationType.caused_by⟩, ⟨5, RelationType.enabled_by⟩]⟩]).get
          ⟨i, h⟩).causalRelations,
        0 ≤ r.targetFactIndex ∧ r.targetFactIndex < (i : Int) ∧
        (r.relationType = RelationType.caused_by ∨
          r.relationType = RelationType.enabled_by ∨
          r.relationType = RelationType.prevented_by)) ∧
    ∀ (h0 : 0 < (validateCausalRelations
        [⟨"a", [⟨0, RelationType.caused_by⟩]⟩,
          ⟨"b", [⟨0, RelationType.caused_by⟩, ⟨5, RelationType.enabled_by⟩]⟩]).length),
      ((validateCausalRelations
          [⟨"a", [⟨0, RelationType.caused_by⟩]⟩,
            ⟨"b", [⟨0, RelationType.caused_by⟩, ⟨5, RelationType.enabled_by⟩]⟩]).get
          ⟨0, h0⟩).causalRelations = [] :=
  causal_relations_well_founded
    [⟨"a", [⟨0, RelationType.caused_by⟩]⟩,
      ⟨"b", [⟨0, RelationType.caused_by⟩, ⟨5, RelationType.enabled_by⟩]⟩]

/-! ### Consolidation watermark

The consolidation engine's watermark scan and run, exercised by
`tests/test_consolidation.py`; migration `s4n5o6p7q8r9` adds the
`consolidated_at` column and the matching partial index on
`(bank_id, created_at) WHERE consolidated_at IS NULL AND fact_type IN
('experience', 'world')`. -/

inductive FactType where
  | world
  | experience
  | opinion
  | observation
  | mental_model
deriving DecidableEq, Repr

structure ConsUnit where
  id : Nat
  factType : FactType
  createdAt : Nat
  consolidatedAt : Option Nat
deriving DecidableEq, Repr

def consolidationEligible (u : ConsUnit) : Prop :=
  (u.factType = FactType.experience ∨ u.factType = FactType.world) ∧
    u.consolidatedAt = none

instance : DecidablePred consolidationEligible := fun u => by
  unfold consolidationEligible
  infer_instance

def createdLe (a b : ConsUnit) : Prop := a.createdAt ≤ b.createdAt

instance : DecidableRel createdLe := fun a b => by
  unfold createdLe
  infer_instance

instance : IsTotal ConsUnit createdLe :=
  ⟨fun a b => Nat.le_total a.createdAt b.createdAt⟩

instance : IsTrans ConsUnit createdLe :=
  ⟨fun _ _ _ hab hbc => Nat.le_trans hab hbc⟩

/-- Modelled from the spec: the watermark scan of `run_consolidation_job`
(`hindsight_api.engine.consolidation.consolidator` is not under `src/`):
fetch units with fact_type in {experience, world} and consolidated_at IS
NULL, ordered by created_at. -/
def watermarkScan (bank : List ConsUnit) : List ConsUnit :=
  List.insertionSort createdLe (bank.filter fun u => consolidationEligible u)

inductive ConsStatus where
  | no_new_memories
  | completed
deriving DecidableEq, Repr

structure ConsolidationResult where
  status : ConsStatus
  memoriesProcessed : Nat
deriving DecidableEq, Repr

/-- Modelled from the spec: one consolidation run over a bank: scan the
watermark; if the batch is empty return `no_new_memories` with zero
memories processed; otherwise process the batch and stamp each processed
unit's `consolidated_at` (spec step 3e), leaving already-consolidated
units untouched. -/
def runConsolidation (now : Nat) (bank : List ConsUnit) :
    ConsolidationResult × List ConsUnit :=
  let batch := watermarkScan bank
  if batch.isEmpty then (⟨ConsStatus.no_new_memories, 0⟩, bank)
  else
    (⟨ConsStatus.completed, batch.length⟩,
      bank.map fun u =>
        if consolidationEligible u then { u with consolidatedAt := some now }
        else u)

theorem watermarkScan_perm (bank : List ConsUnit) :
    (watermarkScan bank).Perm (bank.filter fun u => consolidationEligible u) :=
  List.perm_insertionSort createdLe _

theorem runConsolidation_no_eligible (now : Nat) (bank : List ConsUnit) :
    (runConsolidation now bank).2.filter
      (fun u => consolidationEligible u) = [] := by
  unfold runConsolidation
  by_cases hbatch : (watermarkScan bank).isEmpty
  · simp only [hbatch, if_pos]
    have hlen := (watermarkScan_perm bank).length_eq
    rw [List.isEmpty_iff_length_eq_zero] at hbatch
    rw [hbatch] at hlen
    exact (List.eq_nil_of_length_eq_zero hlen.symm)
  · simp only [hbatch, if_neg, Bool.false_eq_true, not_false_iff]
    rw [List.filter_eq_nil_iff]
    intro u hu
    obtain ⟨v, hv, rfl⟩ := List.mem_map.mp hu
    by_cases hel : consolidationEligible v
    · rw [if_pos hel]
      simp [consolidationEligible]
    · rw [if_neg hel]
      simpa using hel

theorem runConsolidation_snd (now : Nat) (bank : List ConsUnit) :
    (runConsolidation now bank).2 = bank ∨
    (runConsolidation now bank).2 =
      bank.map fun u =>
        if consolidationEligible u then { u with consolidatedAt := some now }
        else u := by
  unfold runConsolidation
  by_cases hbatch : (watermarkScan bank).isEmpty
  · exact Or.inl (by simp [hbatch])
  · exact Or.inr (by simp [hbatch])

theorem runConsolidation_of_no_eligible (now : Nat) (bank : List ConsUnit)
    (hempty : bank.filter (fun u => consolidationEligible u) = []) :
    runConsolidation now bank = (⟨ConsStatus.no_new_memories, 0⟩, bank) := by
  have hb : (watermarkScan bank).isEmpty := by
    rw [List.isEmpty_iff_length_eq_zero, (watermarkScan_perm bank).length_eq,
      hempty]
    rfl
  unfold runConsolidation
  simp [hb]

/-- Claim C3: a consolidation run processes exactly the units with
fact_type in {experience, world} and null consolidated_at, ordered by
created_at; an empty set yields status no_new_memories with zero
memories processed; a non-null consolidated_at is never cleared or
rewritten; and running consolidation twice in a row yields
no_new_memories on the second run. -/
theorem consolidation_watermark_run (now now2 : Nat) (bank : List ConsUnit) :
    (watermarkScan bank).Perm (bank.filter fun u => consolidationEligible u) ∧
    (watermarkScan bank).Sorted createdLe ∧
    ((bank.filter fun u => consolidationEligible u) = [] →
      runConsolidation now bank = (⟨ConsStatus.no_new_memories, 0⟩, bank)) ∧
    (runConsolidation now bank).2.length = bank.length ∧
    (∀ (i : Nat) (h : i < bank.length)
        (h2 : i < (runConsolidation now bank).2.length) (t : Nat),
      (bank.get ⟨i, h⟩).consolidatedAt = some t →
      ((runConsolidation now bank).2.get ⟨i, h2⟩).consolidatedAt = some t) ∧
    (runConsolidation now2 (runConsolidation now bank).2).1.status =
      ConsStatus.no_new_memories := by
  refine ⟨watermarkScan_perm bank, List.sorted_insertionSort createdLe _,
    runConsolidation_of_no_eligible now bank, ?_, ?_, ?_⟩
  · rcases runConsolidation_snd now bank with heq | heq
    · rw [heq]
    · rw [heq]
      exact List.length_map _ _
  · intro i h h2 t ht
    rcases runConsolidation_snd now bank with heq | heq
    · have hg := List.get_of_eq heq ⟨i, h2⟩
      rw [hg]
      exact ht
    · have hg := List.get_of_eq heq ⟨i, h2⟩
      rw [hg]
      have hnel : ¬consolidationEligible (bank.get ⟨i, by
          have := h2
          rw [heq] at this
          simpa using this⟩) := by
        intro hel
        have := hel.2
        simp only [List.get_eq_getElem] at this ht
        rw [ht] at this
        cases this
      simp only [List.get_eq_getElem, List.getElem_map]
      rw [if_neg (by simpa using hnel)]
      simpa using ht
  · rw [runConsolidation_of_no_eligible now2 _
      (runConsolidation_no_eligible now bank)]

/-- Witness for C3 at a concrete bank. -/
theorem consolidation_watermark_run_witness :
    (watermarkScan [⟨1, FactType.world, 5, none⟩, ⟨2, FactType.opinion, 3, none⟩,
        ⟨3, FactType.experience, 1, some 9⟩]).Perm
      (([⟨1, FactType.world, 5, none⟩, ⟨2, FactType.opinion, 3, none⟩,
        ⟨3, FactType.experience, 1, some 9⟩] : List ConsUnit).filter
        fun u => consolidationEligible u) ∧
    (watermarkScan [⟨1, FactType.world, 5, none⟩, ⟨2, FactType.opinion, 3, none⟩,
        ⟨3, FactType.experience, 1, some 9⟩]).Sorted createdLe ∧
    ((([⟨1, FactType.world, 5, none⟩, ⟨2, FactType.opinion, 3, none⟩,
        ⟨3, FactType.experience, 1, some 9⟩] : List ConsUnit).filter
        fun u => consolidationEligible u) = [] →
      runConsolidation 10 [⟨1, FactType.world, 5, none⟩,
          ⟨2, FactType.opinion, 3, none⟩, ⟨3, FactType.experience, 1, some 9⟩] =
        (⟨ConsStatus.no_new_memories, 0⟩,
          [⟨1, FactType.world, 5, none⟩, ⟨2, FactType.opinion, 3, none⟩,
            ⟨3, FactType.experience, 1, some 9⟩])) ∧
    (runConsolidation 10 [⟨1, FactType.world, 5, none⟩,
        ⟨2, FactType.opinion, 3, none⟩,
        ⟨3, FactType.experience, 1, some 9⟩]).2.length =
      ([⟨1, FactType.world, 5, none⟩, ⟨2, FactType.opinion, 3, none⟩,
        ⟨3, FactType.experience, 1, some 9⟩] : List ConsUnit).length ∧
    (∀ (i : Nat)
        (h : i < ([⟨1, FactType.world, 5, none⟩, ⟨2, FactType.opinion, 3, none⟩,
          ⟨3, FactType.experience, 1, some 9⟩] : List ConsUnit).length)
        (h2 : i < (runConsolidation 10 [⟨1, FactType.world, 5, none⟩,
          ⟨2, FactType.opinion, 3, none⟩,
          ⟨3, FactType.experience, 1, some 9⟩]).2.length) (t : Nat),
      (([⟨1, FactType.world, 5, none⟩, ⟨2, FactType.opinion, 3, none⟩,
        ⟨3, FactType.experience, 1, some 9⟩] : List ConsUnit).get
          ⟨i, h⟩).consolidatedAt = some t →
      ((runConsolidation 10 [⟨1, FactType.world, 5, none⟩,
          ⟨2, FactType.opinion, 3, none⟩,
          ⟨3, FactType.experience, 1, some 9⟩]).2.get
          ⟨i, h2⟩).consolidatedAt = some t) ∧
    (runConsolidation 11 (runConsolidation 10 [⟨1, FactType.world, 5, none⟩,
        ⟨2, FactType.opinion, 3, none⟩,
        ⟨3, FactType.experience, 1, some 9⟩]).2).1.status =
      ConsStatus.no_new_memories :=
  consolidation_watermark_run 10 11
    [⟨1, FactType.world, 5, none⟩, ⟨2, FactType.opinion, 3, none⟩,
      ⟨3, FactType.experience, 1, some 9⟩]

/-! ### Mental-model traceability

Mental models live in `memory_units` with fact_type 'mental_model'
(migration `p1k2l3m4n5o6` adds `proof_count` defaulting to 1,
`source_memory_ids` and `history`); `tests/test_consolidation.py`
checks proof counts and the bidirectional semantic links. -/

structure MentalModel where
  id : Nat
  proofCount : Nat
  sourceMemoryIds : List Nat
deriving DecidableEq, Repr

structure KnowledgeState where
  models : List MentalModel
  links : List MemoryLink
deriving DecidableEq, Repr

inductive ConsAction where
  | create (modelId unitId : Nat)
  | update (modelId unitId : Nat)
  | skip
deriving DecidableEq, Repr

/-- Modelled from the spec: applying one consolidation action (the
consolidator module is not under `src/`): CREATE inserts a mental model
with `proof_count = 1`, `source_memory_ids = [u.id]` and bidirectional
semantic links unit↔model; UPDATE increments `proof_count`, appends the
unit to `source_memory_ids` and maintains the bidirectional semantic
links (the spec: "maintains bidirectional links; updates
proof_count/history"); NONE does nothing. -/
def applyAction (st : KnowledgeState) : ConsAction → KnowledgeState
  | ConsAction.create mid uid =>
    { models := st.models ++ [⟨mid, 1, [uid]⟩],
      links := st.links ++
        [⟨uid, mid, LinkType.semantic, 1, none⟩,
          ⟨mid, uid, LinkType.semantic, 1, none⟩] }
  | ConsAction.update mid uid =>
    { models := st.models.map fun m =>
        if m.id = mid then
          { m with proofCount := m.proofCount + 1,
                   sourceMemoryIds := m.sourceMemoryIds ++ [uid] }
        else m,
      links := st.links ++
        [⟨uid, mid, LinkType.semantic, 1, none⟩,
          ⟨mid, uid, LinkType.semantic, 1, none⟩] }
  | ConsAction.skip => st

def applyActions (st : KnowledgeState) (acts : List ConsAction) :
    KnowledgeState :=
  acts.foldl applyAction st

def SemLinked (links : List MemoryLink) (a b : Nat) : Prop :=
  ∃ l ∈ links, l.fromUnit = a ∧ l.toUnit = b ∧ l.linkType = LinkType.semantic

instance (links : List MemoryLink) (a b : Nat) :
    Decidable (SemLinked links a b) := by
  unfold SemLinked
  infer_instance

/-- The traceability invariant for mental models. -/
def Traceable (st : KnowledgeState) : Prop :=
  ∀ m ∈ st.models,
    m.proofCount = m.sourceMemoryIds.length ∧ 1 ≤ m.proofCount ∧
    ∀ s ∈ m.sourceMemoryIds,
      SemLinked st.links m.id s ∧ SemLinked st.links s m.id

instance (st : KnowledgeState) : Decidable (Traceable st) := by
  unfold Traceable
  infer_instance

theorem semLinked_append (links ls : List MemoryLink) (a b : Nat)
    (h : SemLinked links a b) : SemLinked (links ++ ls) a b := by
  obtain ⟨l, hl, hp⟩ := h
  exact ⟨l, List.mem_append.mpr (Or.inl hl), hp⟩

theorem traceable_applyAction {st : KnowledgeState} (act : ConsAction)
    (h : Traceable st) : Traceable (applyAction st act) := by
  cases act with
  | create mid uid =>
    intro m hm
    rcases List.mem_append.mp hm with hm | hm
    · obtain ⟨hc, hp, hs⟩ := h m hm
      exact ⟨hc, hp, fun s hsm =>
        ⟨semLinked_append _ _ _ _ (hs s hsm).1,
          semLinked_append _ _ _ _ (hs s hsm).2⟩⟩
    · have hm' : m = ⟨mid, 1, [uid]⟩ := by simpa using hm
      subst hm'
      refine ⟨rfl, le_refl 1, ?_⟩
      intro s hsm
      have hs' : s = uid := by simpa using hsm
      subst hs'
      constructor
      · exact ⟨⟨mid, s, LinkType.semantic, 1, none⟩,
          List.mem_append.mpr (Or.inr (by simp)), rfl, rfl, rfl⟩
      · exact ⟨⟨s, mid, LinkType.semantic, 1, none⟩,
          List.mem_append.mpr (Or.inr (by simp)), rfl, rfl, rfl⟩
  | update mid uid =>
    intro m hm
    obtain ⟨m0, hm0, rfl⟩ := List.mem_map.mp hm
    obtain ⟨hc, hp, hs⟩ := h m0 hm0
    by_cases hid : m0.id = mid
    · rw [if_pos hid]
      refine ⟨?_, ?_, ?_⟩
      · show m0.proofCount + 1 = (m0.sourceMemoryIds ++ [uid]).length
        simp [hc]
      · show 1 ≤ m0.proofCount + 1
        omega
      intro s hsm
      rcases List.mem_append.mp hsm with hsm | hsm
      · exact ⟨semLinked_append _ _ _ _ (hs s hsm).1,
          semLinked_append _ _ _ _ (hs s hsm).2⟩
      · have hs' : s = uid := by simpa using hsm
        subst hs'
        constructor
        · exact ⟨⟨mid, s, LinkType.semantic, 1, none⟩,
            List.mem_append.mpr (Or.inr (by simp)), by simp [hid], rfl, rfl⟩
        · exact ⟨⟨s, mid, LinkType.semantic, 1, none⟩,
            List.mem_append.mpr (Or.inr (by simp)), rfl, by simp [hid], rfl⟩
    · rw [if_neg hid]
      exact ⟨hc, hp, fun s hsm =>
        ⟨semLinked_append _ _ _ _ (hs s hsm).1,
          semLinked_append _ _ _ _ (hs s hsm).2⟩⟩
  | skip => exact h

theorem traceable_applyActions {st : KnowledgeState} (acts : List ConsAction)
    (h : Traceable st) : Traceable (applyActions st acts) := by
  induction acts generalizing st with
  | nil => exact h
  | cons a rest ih => exact ih (traceable_applyAction a h)

/-- Claim C2: after any sequence of consolidation actions, every mental
model's proof_count equals the length of its source_memory_ids and is at
least 1, and each source is joined to the model by semantic links in
both directions. -/
theorem mental_model_traceability (st : KnowledgeState) (h : Traceable st)
    (acts : List ConsAction) :
    ∀ m ∈ (applyActions st acts).models,
      m.proofCount = m.sourceMemoryIds.length ∧ 1 ≤ m.proofCount ∧
      ∀ s ∈ m.sourceMemoryIds,
        SemLinked (applyActions st acts).links m.id s ∧
        SemLinked (applyActions st acts).links s m.id :=
  traceable_applyActions acts h

/-- Witness for C2: empty initial state, one create and one update. -/
theorem mental_model_traceability_witness :
    Traceable (applyActions ⟨[], []⟩
      [ConsAction.create 100 1, ConsAction.update 100 2]) :=
  mental_model_traceability ⟨[], []⟩ (fun m hm => absurd hm (List.not_mem_nil m))
    [ConsAction.create 100 1, ConsAction.update 100 2]

/-! ### retain_batch document upsert

`BatchPutRequest` in `src/web/server.py` carries the `upsert` flag of
`retain_batch`/`put_batch_async`; `tests/test_document_tracking.py`
exercises the replacement semantics. -/

/-- The declared default of the `upsert` field of `BatchPutRequest`
(`upsert: bool = False` in `src/web/server.py`). -/
def batchPutRequestUpsertDefault : Bool := false

structure DocUnit where
  id : Nat
  documentId : Option Nat
deriving DecidableEq, Repr

structure DocStore where
  units : List DocUnit
  links : List MemoryLink
  unitEntities : List (Nat × Nat)
deriving DecidableEq, Repr

/-- The unit ids previously stored under a document. -/
def docUnitIds (st : DocStore) (docId : Nat) : List Nat :=
  (st.units.filter fun u => u.documentId = some docId).map DocUnit.id

/-- Modelled from the spec: the document-upsert path of
`put_batch_async` (`temporal_semantic_memory.py` is not under `src/`):
with `upsert=true` and an existing `document_id`, the document's prior
units are deleted, cascading their memory links and unit-entity rows,
and the batch's new units are inserted under the document. -/
def retainBatchUpsert (st : DocStore) (docId : Nat) (newIds : List Nat) :
    DocStore :=
  let deleted := docUnitIds st docId
  { units := (st.units.filter fun u => ¬u.documentId = some docId) ++
      newIds.map fun i => ⟨i, some docId⟩,
    links := st.links.filter fun l =>
      l.fromUnit ∉ deleted ∧ l.toUnit ∉ deleted,
    unitEntities := st.unitEntities.filter fun p => p.1 ∉ deleted }

/-- Counterexample to C5 as stated: the upsert parameter of
`BatchPutRequest` defaults to false, not true. -/
theorem retain_batch_upsert_default_not_true :
    ¬(batchPutRequestUpsertDefault = true) := by
  decide

/-- Claim C5 (amended): the upsert parameter defaults to false, and
retaining with an existing document_id with upsert enabled replaces all
units previously linked to that document: every previously linked unit
id is deleted, the new unit ids are disjoint from the old ones, and no
link or unit-entity row referencing a deleted unit remains. -/
theorem retain_batch_upsert_replaces (st : DocStore) (docId : Nat)
    (newIds : List Nat) (hnodup : (st.units.map DocUnit.id).Nodup)
    (hfresh : ∀ i ∈ newIds, i ∉ st.units.map DocUnit.id) :
    batchPutRequestUpsertDefault = false ∧
    (∀ d ∈ docUnitIds st docId, d ∉ newIds) ∧
    (∀ d ∈ docUnitIds st docId,
      d ∉ (retainBatchUpsert st docId newIds).units.map DocUnit.id) ∧
    (∀ l ∈ (retainBatchUpsert st docId newIds).links,
      l.fromUnit ∉ docUnitIds st docId ∧ l.toUnit ∉ docUnitIds st docId) ∧
    ∀ p ∈ (retainBatchUpsert st docId newIds).unitEntities,
      p.1 ∉ docUnitIds st docId := by
  have hsub : ∀ d ∈ docUnitIds st docId, d ∈ st.units.map DocUnit.id := by
    intro d hd
    obtain ⟨u, hu, rfl⟩ := List.mem_map.mp hd
    exact List.mem_map.mpr ⟨u, (List.mem_filter.mp hu).1, rfl⟩
  refine ⟨rfl, ?_, ?_, ?_, ?_⟩
  · intro d hd hdn
    exact hfresh d hdn (hsub d hd)
  · intro d hd hmem
    obtain ⟨u, hu2, hueq⟩ := List.mem_map.mp hmem
    rcases List.mem_append.mp hu2 with hu | hu
    · obtain ⟨v, hv, hveq⟩ := List.mem_map.mp hd
      have hvdoc := of_decide_eq_true (List.mem_filter.mp hv).2
      have hudoc := of_decide_eq_true (List.mem_filter.mp hu).2
      have huv : u = v :=
        List.inj_on_of_nodup_map hnodup (List.mem_filter.mp hu).1
          (List.mem_filter.mp hv).1 (by rw [hueq, hveq])
      rw [huv] at hudoc
      exact hudoc hvdoc
    · obtain ⟨i, hi, hiu⟩ := List.mem_map.mp hu
      have hdi : d = i := by rw [← hueq, ← hiu]
      rw [hdi] at hd
      exact hfresh i hi (hsub i hd)
  · intro l hl
    have := of_decide_eq_true (List.mem_filter.mp hl).2
    exact this
  · intro p hp
    exact of_decide_eq_true (List.mem_filter.mp hp).2

/-- Witness for C5 (amended) at a concrete store. -/
theorem retain_batch_upsert_replaces_witness :
    batchPutRequestUpsertDefault = false ∧
    (∀ d ∈ docUnitIds ⟨[⟨1, some 7⟩, ⟨2, none⟩],
        [⟨1, 2, LinkType.semantic, 1, none⟩], [(1, 5)]⟩ 7, d ∉ [3]) ∧
    (∀ d ∈ docUnitIds ⟨[⟨1, some 7⟩, ⟨2, none⟩],
        [⟨1, 2, LinkType.semantic, 1, none⟩], [(1, 5)]⟩ 7,
      d ∉ (retainBatchUpsert ⟨[⟨1, some 7⟩, ⟨2, none⟩],
        [⟨1, 2, LinkType.semantic, 1, none⟩], [(1, 5)]⟩ 7 [3]).units.map
          DocUnit.id) ∧
    (∀ l ∈ (retainBatchUpsert ⟨[⟨1, some 7⟩, ⟨2, none⟩],
        [⟨1, 2, LinkType.semantic, 1, none⟩], [(1, 5)]⟩ 7 [3]).links,
      l.fromUnit ∉ docUnitIds ⟨[⟨1, some 7⟩, ⟨2, none⟩],
        [⟨1, 2, LinkType.semantic, 1, none⟩], [(1, 5)]⟩ 7 ∧
      l.toUnit ∉ docUnitIds ⟨[⟨1, some 7⟩, ⟨2, none⟩],
        [⟨1, 2, LinkType.semantic, 1, none⟩], [(1, 5)]⟩ 7) ∧
    ∀ p ∈ (retainBatchUpsert ⟨[⟨1, some 7⟩, ⟨2, none⟩],
        [⟨1, 2, LinkType.semantic, 1, none⟩], [(1, 5)]⟩ 7 [3]).unitEntities,
      p.1 ∉ docUnitIds ⟨[⟨1, some 7⟩, ⟨2, none⟩],
        [⟨1, 2, LinkType.semantic, 1, none⟩], [(1, 5)]⟩ 7 :=
  retain_batch_upsert_replaces
    ⟨[⟨1, some 7⟩, ⟨2, none⟩], [⟨1, 2, LinkType.semantic, 1, none⟩], [(1, 5)]⟩
    7 [3] (by decide) (by decide)

end Hindsight
